import Mathlib

/-
Verification of the agreement engine specification of go-algorand.

The repository sample contains the agreement service's test harness
(src/agreement/service_test.go); the Service implementation itself (state
machine, timeout policy, fast-recovery controller, verification pipeline) is
not part of the sample, so those components are modelled here from the
specification (spec.md) and settled against that model.  Constants and
behaviours that do appear in the sampled harness (the testing clock whose
Since is the constant 1, the firstFPR/secondFPR firing offsets, the constant
testing random source) are embedded directly.
-/

namespace Agreement

/-- Modelled from the spec: the consensus-parameter fields of the protocol
version table that the agreement timeout policy consumes (§4.2, §6): the
static period-0 filter timeout (AgreementFilterTimeoutPeriod0), the filter
timeout base for later periods, the deadline timeout base, and the
DynamicFilterTimeout feature flag. -/
structure ConsensusParams where
  agreementFilterTimeoutPeriod0 : Nat
  agreementFilterTimeout : Nat
  agreementDeadlineTimeout : Nat
  dynamicFilterTimeout : Bool
deriving DecidableEq

/-- Modelled from the spec: the credential-arrival history tracked for the
dynamic timeout policy (§3 HistoricalClock entry, §4.1, §4.2), missing from
src (only exercised by service_test.go).  `committed` counts the rounds
committed since tracking began; `window` is the list of finalized
credential-arrival samples, newest first, capped at
dynamicFilterCredentialArrivalHistory. -/
structure CredentialArrivalState where
  committed : Nat
  window : List Nat
deriving DecidableEq

/-- The arrival-tracking state at service start: nothing committed, empty
window. -/
def initialArrival : CredentialArrivalState := ⟨0, []⟩

/-- Modelled from the spec: committing one round finalizes the arrival sample
of the round `lag` (credentialRoundLag) rounds back — a credential may arrive
up to `lag` rounds late, so its per-round arrival figure is final only then —
and pushes it into the window, which retains the newest `history`
(dynamicFilterCredentialArrivalHistory) samples (§4.1, §4.2). -/
def commitRound (lag history : Nat) (sample : Nat → Nat)
    (s : CredentialArrivalState) : CredentialArrivalState :=
  if lag ≤ s.committed then
    ⟨s.committed + 1, (sample (s.committed - lag) :: s.window).take history⟩
  else
    ⟨s.committed + 1, s.window⟩

/-- Modelled from the spec: a history-invalidating event (fast recovery into a
new period) discards the accumulated credential-arrival history (§4.2). -/
def invalidateHistory (s : CredentialArrivalState) : CredentialArrivalState :=
  ⟨s.committed, []⟩

/-- Modelled from the spec: the dynamically derived period-0 filter timeout
from a full window of observed arrival samples: the largest observed arrival
plus a small grace margin, tighter than the static default when observed
arrivals are tight (§4.2). -/
def dynamicFilterTimeoutVal (grace : Nat) (window : List Nat) : Nat :=
  window.foldr max 0 + grace

/-- Modelled from the spec (§4.2): the period-0 filter timeout: the static
protocol default, unless the DynamicFilterTimeout feature is enabled and the
credential-arrival window is full, in which case the dynamically derived
value.  The `0 < history` guard mirrors the harness guard
`dynamicFilterCredentialArrivalHistory <= 0`. -/
def filterTimeoutPeriod0 (params : ConsensusParams) (history : Nat)
    (grace : Nat) (s : CredentialArrivalState) : Nat :=
  if params.dynamicFilterTimeout = true ∧ s.window.length = history ∧ 0 < history then
    dynamicFilterTimeoutVal grace s.window
  else
    params.agreementFilterTimeoutPeriod0

/-- Modelled from the spec (§4.2): FilterTimeout delegates to the period-0
policy at period 0 and otherwise grows monotonically with the period. -/
def FilterTimeout (p : Nat) (params : ConsensusParams) (history : Nat)
    (grace : Nat) (s : CredentialArrivalState) : Nat :=
  if p = 0 then filterTimeoutPeriod0 params history grace s
  else params.agreementFilterTimeout + p * params.agreementFilterTimeout

/-- Modelled from the spec (§4.2): the hard period-failure boundary after
which fast recovery must begin; independent of the dynamic-filter
adjustment and growing with the period. -/
def DeadlineTimeout (p : Nat) (params : ConsensusParams) : Nat :=
  params.agreementDeadlineTimeout + p * params.agreementDeadlineTimeout

/-
HistoricalClock bookkeeping (claim C2).  The Service keeps one clock per
recent round; we model the set of retained rounds as a list, newest first.
-/

/-- Modelled from the spec: cleanup of historical clocks at a round boundary:
entries whose round has aged out of the `credentialRoundLag` window relative
to the current round are evicted (§3, §4.1, §4.3). -/
def pruneHistoricalClocks (lag : Nat) (current : Nat) (hc : List Nat) : List Nat :=
  hc.filter (fun r => current ≤ r + lag)

/-- Modelled from the spec: on advancing to round `newRound` the Service
records the clock of the new round and evicts aged-out entries (§4.3 on
commit: the HistoricalClock window is updated). -/
def advanceHistoricalClocks (lag : Nat) (newRound : Nat) (hc : List Nat) : List Nat :=
  pruneHistoricalClocks lag newRound (newRound :: hc)

/-- The rounds whose clocks are retained after starting at round `start`
(recording the start-round clock) and then committing `n` consecutive
rounds. -/
def historicalClocksAfter (lag : Nat) (start : Nat) : Nat → List Nat
  | 0 => [start]
  | n + 1 => advanceHistoricalClocks lag (start + n + 1) (historicalClocksAfter lag start n)

/-- The descending window of rounds `[top, top - 1, ..., top - k]`. -/
def windowList (top : Nat) : Nat → List Nat
  | 0 => [top]
  | k + 1 => top :: windowList (top - 1) k

theorem windowList_length (top : Nat) : ∀ k, (windowList top k).length = k + 1 := by
  intro k
  induction k generalizing top with
  | zero => rfl
  | succ k ih => simp [windowList, ih]

theorem windowList_mem (k top r : Nat) (hk : k ≤ top) :
    r ∈ windowList top k ↔ top - k ≤ r ∧ r ≤ top := by
  induction k generalizing top with
  | zero =>
    simp only [windowList, List.mem_singleton]
    omega
  | succ k ih =>
    simp only [windowList, List.mem_cons]
    rw [ih (top - 1) (by omega)]
    omega

theorem filter_windowList (lag c : Nat) :
    ∀ k top, k ≤ top →
      (windowList top k).filter (fun r => decide (c ≤ r + lag)) =
        if c ≤ top + lag then windowList top (min k (top + lag - c)) else [] := by
  intro k
  induction k with
  | zero =>
    intro top _
    by_cases h : c ≤ top + lag
    · rw [if_pos h, Nat.zero_min]
      simp [windowList, List.filter_cons, h]
    · rw [if_neg h]
      simp [windowList, List.filter_cons, h]
  | succ k ih =>
    intro top hk
    by_cases h : c ≤ top + lag
    · have hk1 : k ≤ top - 1 := by omega
      rw [if_pos h, windowList, List.filter_cons]
      simp only [decide_eq_true_eq]
      rw [if_pos h]
      rw [ih (top - 1) hk1]
      by_cases h1 : c ≤ top - 1 + lag
      · rw [if_pos h1]
        have hm : top + lag - c = (top - 1 + lag - c) + 1 := by omega
        have hmin : min (k + 1) (top + lag - c) = min k (top - 1 + lag - c) + 1 := by
          rw [hm]
          exact Nat.succ_min_succ k (top - 1 + lag - c)
        rw [hmin, windowList]
      · rw [if_neg h1]
        have hmin : min (k + 1) (top + lag - c) = 0 := by
          have hz : top + lag - c = 0 := by omega
          rw [hz, Nat.min_zero]
        rw [hmin, windowList]
    · rw [if_neg h, windowList, List.filter_cons]
      simp only [decide_eq_true_eq]
      rw [if_neg h]
      rw [ih (top - 1) (by omega)]
      rw [if_neg (by omega)]

theorem historicalClocksAfter_eq (lag start : Nat) :
    ∀ n, historicalClocksAfter lag start n = windowList (start + n) (min n lag) := by
  intro n
  induction n with
  | zero => simp [historicalClocksAfter, windowList]
  | succ n ih =>
    rw [historicalClocksAfter, ih, advanceHistoricalClocks, pruneHistoricalClocks,
      List.filter_cons]
    simp only [decide_eq_true_eq]
    rw [if_pos (by omega)]
    have hminle : min n lag ≤ start + n := by
      have := Nat.min_le_left n lag
      omega
    rw [filter_windowList lag (start + n + 1) (min n lag) (start + n) hminle]
    by_cases hlag : 0 < lag
    · rw [if_pos (by omega)]
      have e1 : start + n + lag - (start + n + 1) = lag - 1 := by omega
      have h1 : min (min n lag) (lag - 1) = min n (lag - 1) := by
        rw [Nat.min_assoc, Nat.min_eq_right (Nat.sub_le lag 1)]
      have h2 : min (n + 1) lag = min n (lag - 1) + 1 := by
        have e2 : lag = (lag - 1) + 1 := by omega
        calc min (n + 1) lag = min (n + 1) ((lag - 1) + 1) := by rw [← e2]
          _ = min n (lag - 1) + 1 := Nat.succ_min_succ n (lag - 1)
      rw [e1, h1, h2, windowList]
      rfl
    · have hlag0 : lag = 0 := by omega
      subst hlag0
      rw [if_neg (by omega)]
      have h2 : min (n + 1) 0 = 0 := Nat.min_zero (n + 1)
      rw [h2, windowList]
      rfl

/-- Claim C2: HistoricalClock window invariant.  After any number `n` of
committed rounds starting at `start`, the retained historical-clock map
(`historicalClocksAfter`) holds at most `credentialRoundLag + 1` entries; it
holds an entry for every round still referenceable by the dynamic policy
(every round of the last `credentialRoundLag` rounds plus the current round);
and after committing at least `credentialRoundLag` consecutive rounds it holds
exactly `credentialRoundLag + 1` entries. -/
theorem historicalClocks_window_invariant (lag start n : Nat) :
    (historicalClocksAfter lag start n).length ≤ lag + 1 ∧
    (∀ r : Nat, start ≤ r → r ≤ start + n → start + n ≤ r + lag →
      r ∈ historicalClocksAfter lag start n) ∧
    (lag ≤ n → (historicalClocksAfter lag start n).length = lag + 1) := by
  rw [historicalClocksAfter_eq]
  have hmn : min n lag ≤ n := Nat.min_le_left n lag
  have hml : min n lag ≤ lag := Nat.min_le_right n lag
  refine ⟨?_, ?_, ?_⟩
  · rw [windowList_length]
    omega
  · intro r h1 h2 h3
    rw [windowList_mem (min n lag) (start + n) r (by omega)]
    rcases Nat.le_total n lag with hc | hc
    · rw [Nat.min_eq_left hc]
      omega
    · rw [Nat.min_eq_right hc]
      omega
  · intro h
    rw [windowList_length, Nat.min_eq_right h]

/-- Witness for C2 at concrete input: lag 3, start 5, after 7 committed
rounds the window has exactly 4 entries, round 10 is retained, and the length
bound holds. -/
theorem historicalClocks_window_invariant_witness :
    (historicalClocksAfter 3 5 7).length ≤ 4 ∧
    10 ∈ historicalClocksAfter 3 5 7 ∧
    (historicalClocksAfter 3 5 7).length = 4 :=
  ⟨(historicalClocks_window_invariant 3 5 7).1,
   (historicalClocks_window_invariant 3 5 7).2.1 10 (by decide) (by decide) (by decide),
   (historicalClocks_window_invariant 3 5 7).2.2 (by decide)⟩

/-
Dynamic filter timeout schedule (claim C3).
-/

/-- Modelled from the spec (§4.2): the events that drive credential-arrival
history bookkeeping over a run: a committed round, or a history-invalidating
fast recovery into a new period. -/
inductive HistoryEvent
  | commit
  | invalidate
deriving DecidableEq

/-- One bookkeeping step of the arrival history. -/
def arrivalStep (lag history : Nat) (sample : Nat → Nat)
    (s : CredentialArrivalState) : HistoryEvent → CredentialArrivalState
  | HistoryEvent.commit => commitRound lag history sample s
  | HistoryEvent.invalidate => invalidateHistory s

/-- The arrival-history state after processing a trace of events from service
start. -/
def arrivalRun (lag history : Nat) (sample : Nat → Nat)
    (es : List HistoryEvent) : CredentialArrivalState :=
  es.foldl (arrivalStep lag history sample) initialArrival

/-- The arrival-history state after `j` consecutive committed rounds from
state `s`. -/
def commitsFrom (lag history : Nat) (sample : Nat → Nat) :
    Nat → CredentialArrivalState → CredentialArrivalState
  | 0, s => s
  | j + 1, s => commitsFrom lag history sample j (commitRound lag history sample s)

theorem foldl_replicate_commit (lag history : Nat) (sample : Nat → Nat) :
    ∀ j s, (List.replicate j HistoryEvent.commit).foldl (arrivalStep lag history sample) s =
      commitsFrom lag history sample j s := by
  intro j
  induction j with
  | zero => intro s; rfl
  | succ j ih =>
    intro s
    rw [List.replicate_succ, List.foldl_cons]
    exact ih (commitRound lag history sample s)

theorem arrivalRun_replicate (lag history : Nat) (sample : Nat → Nat) (j : Nat) :
    arrivalRun lag history sample (List.replicate j HistoryEvent.commit) =
      commitsFrom lag history sample j initialArrival :=
  foldl_replicate_commit lag history sample j initialArrival

theorem arrivalRun_reset (lag history : Nat) (sample : Nat → Nat) (m k : Nat) :
    arrivalRun lag history sample
        (List.replicate m HistoryEvent.commit ++
          HistoryEvent.invalidate :: List.replicate k HistoryEvent.commit) =
      commitsFrom lag history sample k
        (invalidateHistory (commitsFrom lag history sample m initialArrival)) := by
  unfold arrivalRun
  rw [List.foldl_append, List.foldl_cons, foldl_replicate_commit, foldl_replicate_commit]
  rfl

theorem commitsFrom_committed (lag history : Nat) (sample : Nat → Nat) :
    ∀ j s, (commitsFrom lag history sample j s).committed = s.committed + j := by
  intro j
  induction j with
  | zero => intro s; rfl
  | succ j ih =>
    intro s
    rw [commitsFrom, ih]
    unfold commitRound
    by_cases h : lag ≤ s.committed
    · rw [if_pos h]
      dsimp only
      omega
    · rw [if_neg h]
      dsimp only
      omega

theorem commitsFrom_add (lag history : Nat) (sample : Nat → Nat) :
    ∀ a b s, commitsFrom lag history sample (a + b) s =
      commitsFrom lag history sample b (commitsFrom lag history sample a s) := by
  intro a
  induction a with
  | zero =>
    intro b s
    rw [Nat.zero_add]
    rfl
  | succ a ih =>
    intro b s
    have e : a + 1 + b = (a + b) + 1 := by omega
    rw [e, commitsFrom, ih]
    rfl

theorem commitsFrom_window_pre (lag history : Nat) (sample : Nat → Nat) :
    ∀ j s, s.committed + j ≤ lag → (commitsFrom lag history sample j s).window = s.window := by
  intro j
  induction j with
  | zero => intro s _; rfl
  | succ j ih =>
    intro s hs
    rw [commitsFrom]
    have hlt : ¬ lag ≤ s.committed := by omega
    have hcr : commitRound lag history sample s = ⟨s.committed + 1, s.window⟩ := by
      unfold commitRound
      rw [if_neg hlt]
    rw [hcr, ih ⟨s.committed + 1, s.window⟩ (by dsimp only; omega)]

theorem min_min_add (h a b : Nat) : min h (min h a + b) = min h (a + b) := by
  rcases Nat.le_total a h with hc | hc
  · rw [Nat.min_eq_right hc]
  · rw [Nat.min_eq_left hc, Nat.min_eq_left (by omega), Nat.min_eq_left (by omega)]

theorem commitsFrom_window_length (lag history : Nat) (sample : Nat → Nat) :
    ∀ j s, lag ≤ s.committed → s.window.length ≤ history →
      ((commitsFrom lag history sample j s).window).length =
        min history (s.window.length + j) := by
  intro j
  induction j with
  | zero =>
    intro s _ hw
    rw [Nat.add_zero, Nat.min_eq_right hw]
    rfl
  | succ j ih =>
    intro s hs hw
    rw [commitsFrom]
    have hcr : commitRound lag history sample s =
        ⟨s.committed + 1, (sample (s.committed - lag) :: s.window).take history⟩ := by
      unfold commitRound
      rw [if_pos hs]
    rw [hcr, ih _ (by simp; omega) (by simp)]
    simp only [List.length_take, List.length_cons]
    rw [min_min_add]
    congr 1
    omega

/-- Every element of the window after any number of committed rounds is either
an original window element or an observed sample. -/
theorem commitsFrom_window_mem (lag history : Nat) (sample : Nat → Nat) (P : Nat → Prop)
    (hP : ∀ r, P (sample r)) :
    ∀ j s, (∀ x ∈ s.window, P x) → ∀ x ∈ (commitsFrom lag history sample j s).window, P x := by
  intro j
  induction j with
  | zero => intro s hs; exact hs
  | succ j ih =>
    intro s hs
    rw [commitsFrom]
    apply ih
    unfold commitRound
    by_cases h : lag ≤ s.committed
    · rw [if_pos h]
      intro x hx
      have hx2 := List.take_subset history _ hx
      rcases List.mem_cons.mp hx2 with h1 | h2
      · rw [h1]; exact hP _
      · exact hs x h2
    · rw [if_neg h]
      exact hs

/-- The dynamically derived timeout is strictly below any bound that strictly
dominates every sample in a nonempty window. -/
theorem dynamicFilterTimeoutVal_lt (grace bound : Nat) :
    ∀ w : List Nat, w ≠ [] → (∀ x ∈ w, x + grace < bound) →
      dynamicFilterTimeoutVal grace w < bound := by
  intro w
  induction w with
  | nil => intro h; exact absurd rfl h
  | cons a w ih =>
    intro _ hall
    unfold dynamicFilterTimeoutVal
    rcases w with _ | ⟨b, w⟩
    · simp only [List.foldr]
      have := hall a (by simp)
      omega
    · have ha := hall a (by simp)
      have hrest : dynamicFilterTimeoutVal grace (b :: w) < bound := by
        apply ih (by simp)
        intro x hx
        exact hall x (List.mem_cons_of_mem a hx)
      unfold dynamicFilterTimeoutVal at hrest
      rw [List.foldr_cons]
      rcases Nat.le_total a ((b :: w).foldr max 0) with hc | hc
      · rw [Nat.max_eq_right hc]
        exact hrest
      · rw [Nat.max_eq_left hc]
        omega

theorem filterTimeout0_not_full (params : ConsensusParams) (history grace : Nat)
    (s : CredentialArrivalState) (h : s.window.length ≠ history) :
    filterTimeoutPeriod0 params history grace s = params.agreementFilterTimeoutPeriod0 := by
  unfold filterTimeoutPeriod0
  rw [if_neg]
  intro hc
  exact h hc.2.1

theorem filterTimeout0_full (params : ConsensusParams) (history grace : Nat)
    (s : CredentialArrivalState) (he : params.dynamicFilterTimeout = true)
    (h : s.window.length = history) (hh : 0 < history) :
    filterTimeoutPeriod0 params history grace s = dynamicFilterTimeoutVal grace s.window := by
  unfold filterTimeoutPeriod0
  rw [if_pos ⟨he, h, hh⟩]

theorem commitsFrom_initial_window_length (lag history : Nat) (sample : Nat → Nat) (j : Nat) :
    ((commitsFrom lag history sample j initialArrival).window).length =
      min history (j - lag) := by
  rcases Nat.le_total j lag with hc | hc
  · rw [commitsFrom_window_pre lag history sample j initialArrival (by dsimp only [initialArrival]; omega)]
    have hz : j - lag = 0 := by omega
    rw [hz, Nat.min_zero]
    rfl
  · obtain ⟨k, rfl⟩ : ∃ k, j = lag + k := ⟨j - lag, by omega⟩
    rw [commitsFrom_add]
    have hBc : (commitsFrom lag history sample lag initialArrival).committed = lag := by
      rw [commitsFrom_committed]
      dsimp only [initialArrival]
      omega
    have hBw : (commitsFrom lag history sample lag initialArrival).window = [] :=
      commitsFrom_window_pre lag history sample lag initialArrival
        (by dsimp only [initialArrival]; omega)
    rw [commitsFrom_window_length lag history sample k _ (by rw [hBc]) (by rw [hBw]; exact Nat.zero_le _)]
    rw [hBw]
    have e : lag + k - lag = k := by omega
    rw [e]
    simp only [List.length_nil, Nat.zero_add]

theorem commitsFrom_initial_window_mem (lag history : Nat) (sample : Nat → Nat)
    (P : Nat → Prop) (hP : ∀ r, P (sample r)) (j : Nat) :
    ∀ x ∈ (commitsFrom lag history sample j initialArrival).window, P x :=
  commitsFrom_window_mem lag history sample P hP j initialArrival
    (by intro x hx; exact absurd hx (List.not_mem_nil x))

/-- Claim C3: dynamic filter timeout schedule.  With DynamicFilterTimeout
enabled, along a run of committed rounds the period-0 filter timeout equals
the static default for every round until the credential-arrival window is
full (`dynamicFilterCredentialArrivalHistory + credentialRoundLag` rounds),
is strictly smaller in the first round after the window fills, and after a
history-invalidating fast-recovery period change it resets to the static
default, becoming strictly smaller again only once a fresh window of
`dynamicFilterCredentialArrivalHistory` samples has filled.  The sample
hypothesis says every observed credential arrival is tighter than the static
default (as in the synchronous harness, whose testing clock reports a Since
of 1). -/
theorem dynamic_filter_timeout_schedule
    (params : ConsensusParams) (lag history grace : Nat) (sample : Nat → Nat)
    (henabled : params.dynamicFilterTimeout = true)
    (hhist : 0 < history)
    (hsample : ∀ r, sample r + grace < params.agreementFilterTimeoutPeriod0) :
    (∀ j, j < history + lag →
      filterTimeoutPeriod0 params history grace
          (arrivalRun lag history sample (List.replicate j HistoryEvent.commit)) =
        params.agreementFilterTimeoutPeriod0) ∧
    filterTimeoutPeriod0 params history grace
        (arrivalRun lag history sample
          (List.replicate (history + lag) HistoryEvent.commit)) <
      filterTimeoutPeriod0 params history grace
        (arrivalRun lag history sample
          (List.replicate (history + lag - 1) HistoryEvent.commit)) ∧
    (∀ m k, lag ≤ m → k < history →
      filterTimeoutPeriod0 params history grace
          (arrivalRun lag history sample
            (List.replicate m HistoryEvent.commit ++
              HistoryEvent.invalidate :: List.replicate k HistoryEvent.commit)) =
        params.agreementFilterTimeoutPeriod0) ∧
    (∀ m, lag ≤ m →
      filterTimeoutPeriod0 params history grace
          (arrivalRun lag history sample
            (List.replicate m HistoryEvent.commit ++
              HistoryEvent.invalidate :: List.replicate history HistoryEvent.commit)) <
        params.agreementFilterTimeoutPeriod0) := by
  have resetLen : ∀ m k, lag ≤ m →
      ((commitsFrom lag history sample k
        (invalidateHistory (commitsFrom lag history sample m initialArrival))).window).length =
        min history k := by
    intro m k hm
    have hBc : (invalidateHistory (commitsFrom lag history sample m initialArrival)).committed = m := by
      dsimp only [invalidateHistory]
      rw [commitsFrom_committed]
      dsimp only [initialArrival]
      omega
    have hBw : (invalidateHistory (commitsFrom lag history sample m initialArrival)).window = [] := rfl
    rw [commitsFrom_window_length lag history sample k _ (by rw [hBc]; exact hm)
      (by rw [hBw]; exact Nat.zero_le _)]
    rw [hBw]
    simp only [List.length_nil, Nat.zero_add]
  have resetMem : ∀ m k, ∀ x ∈ (commitsFrom lag history sample k
      (invalidateHistory (commitsFrom lag history sample m initialArrival))).window,
      x + grace < params.agreementFilterTimeoutPeriod0 := by
    intro m k
    apply commitsFrom_window_mem lag history sample
      (fun x => x + grace < params.agreementFilterTimeoutPeriod0) hsample k
    intro x hx
    exact absurd hx (List.not_mem_nil x)
  refine ⟨?_, ?_, ?_, ?_⟩
  · intro j hj
    rw [arrivalRun_replicate]
    apply filterTimeout0_not_full
    rw [commitsFrom_initial_window_length]
    rw [Nat.min_eq_right (by omega)]
    omega
  · rw [arrivalRun_replicate, arrivalRun_replicate]
    have hfullLen : ((commitsFrom lag history sample (history + lag) initialArrival).window).length
        = history := by
      rw [commitsFrom_initial_window_length]
      have e : history + lag - lag = history := by omega
      rw [e, Nat.min_self]
    rw [filterTimeout0_full params history grace _ henabled hfullLen hhist]
    rw [filterTimeout0_not_full params history grace _ (by
      rw [commitsFrom_initial_window_length]
      rw [Nat.min_eq_right (by omega)]
      omega)]
    apply dynamicFilterTimeoutVal_lt
    · intro hnil
      rw [hnil] at hfullLen
      simp only [List.length_nil] at hfullLen
      omega
    · exact commitsFrom_initial_window_mem lag history sample _ hsample (history + lag)
  · intro m k hm hk
    rw [arrivalRun_reset]
    apply filterTimeout0_not_full
    rw [resetLen m k hm]
    rw [Nat.min_eq_right (by omega)]
    omega
  · intro m hm
    rw [arrivalRun_reset]
    have hfullLen : ((commitsFrom lag history sample history
        (invalidateHistory (commitsFrom lag history sample m initialArrival))).window).length
        = history := by
      rw [resetLen m history hm, Nat.min_self]
    rw [filterTimeout0_full params history grace _ henabled hfullLen hhist]
    apply dynamicFilterTimeoutVal_lt
    · intro hnil
      rw [hnil] at hfullLen
      simp only [List.length_nil] at hfullLen
      omega
    · exact resetMem m history

/-- Witness for C3 at concrete input: history 2, lag 1, static default 100,
grace 5, all samples 1.  The timeout is the static default 100 for the first
two rounds, drops strictly below it once the window fills, resets after an
invalidation, and drops again after a fresh window. -/
theorem dynamic_filter_timeout_schedule_witness :
    filterTimeoutPeriod0 ⟨100, 200, 300, true⟩ 2 5
        (arrivalRun 1 2 (fun _ => 1) (List.replicate 2 HistoryEvent.commit)) = 100 ∧
    filterTimeoutPeriod0 ⟨100, 200, 300, true⟩ 2 5
        (arrivalRun 1 2 (fun _ => 1) (List.replicate 3 HistoryEvent.commit)) <
      filterTimeoutPeriod0 ⟨100, 200, 300, true⟩ 2 5
        (arrivalRun 1 2 (fun _ => 1) (List.replicate 2 HistoryEvent.commit)) ∧
    filterTimeoutPeriod0 ⟨100, 200, 300, true⟩ 2 5
        (arrivalRun 1 2 (fun _ => 1)
          (List.replicate 4 HistoryEvent.commit ++
            HistoryEvent.invalidate :: List.replicate 1 HistoryEvent.commit)) = 100 ∧
    filterTimeoutPeriod0 ⟨100, 200, 300, true⟩ 2 5
        (arrivalRun 1 2 (fun _ => 1)
          (List.replicate 4 HistoryEvent.commit ++
            HistoryEvent.invalidate :: List.replicate 2 HistoryEvent.commit)) < 100 := by
  have h := dynamic_filter_timeout_schedule ⟨100, 200, 300, true⟩ 1 2 5 (fun _ => 1)
    (by decide) (by decide) (by intro r; norm_num)
  exact ⟨h.1 2 (by decide), h.2.1, h.2.2.1 4 1 (by decide) (by decide),
    h.2.2.2 4 (by decide)⟩

/-
Per-node consensus machine transitions (claim C4).
-/

/-- Modelled from the spec (§3 Bundle): the two kinds of quorum: a value
quorum endorsing a specific proposal, or a bottom quorum endorsing no
value. -/
inductive QuorumKind
  | value (v : Nat)
  | bottom
deriving DecidableEq

/-- Modelled from the spec (§4.3): the per-round state of the consensus state
machine at one node: the current period, the number of clock zeroings so far
(the clock is zeroed exactly when a new period or round is entered, as
counted by the testingClock of service_test.go), whether the fast-recovery
timer is armed, the quorums observed so far keyed by period, and the starting
value carried across period failures. -/
structure MachineState where
  period : Nat
  zeroes : Nat
  fastRecoveryArmed : Bool
  quorums : List (Nat × QuorumKind)
  startingValue : Option Nat
deriving DecidableEq

/-- Events consumed by the machine: fired timeouts and quorum observations
(§3 ExternalEvent, §4.3). -/
inductive MEvent
  | filterFired
  | deadlineFired
  | fastRecoveryFired
  | quorumObserved (p : Nat) (k : QuorumKind)
deriving DecidableEq

/-- Actions emitted by the machine (§3 Action). -/
inductive MAction
  | softVote
  | armFastRecovery
  | recoveryVote
  | enterPeriod (p : Nat)
deriving DecidableEq

/-- Whether some quorum (value or bottom) has been observed for period `p`. -/
def hasQuorum (p : Nat) (qs : List (Nat × QuorumKind)) : Bool :=
  qs.any (fun q => q.1 = p)

/-- Modelled from the spec (§4.3 transitions, §4.4): one transition of the
consensus machine.  A Filter timeout leaves the period alone and soft-votes.
A Deadline timeout with no quorum for the period arms fast recovery without
entering a new period; with a quorum already handled the timeout is inert.  A
fast-recovery firing recasts a recovery vote.  Observing a quorum for the
current period enters period+1 (zeroing the clock) and carries the quorum's
value forward as the starting value (a bottom quorum keeps the previous
starting value). -/
def machineStep (s : MachineState) : MEvent → MachineState × List MAction
  | MEvent.filterFired => (s, [MAction.softVote])
  | MEvent.deadlineFired =>
    if hasQuorum s.period s.quorums then (s, [])
    else ({ s with fastRecoveryArmed := true }, [MAction.armFastRecovery])
  | MEvent.fastRecoveryFired => (s, [MAction.recoveryVote])
  | MEvent.quorumObserved p k =>
    if p = s.period then
      ({ s with
          period := s.period + 1,
          zeroes := s.zeroes + 1,
          fastRecoveryArmed := false,
          quorums := (p, k) :: s.quorums,
          startingValue :=
            match k with
            | QuorumKind.value v => some v
            | QuorumKind.bottom => s.startingValue },
        [MAction.enterPeriod (s.period + 1)])
    else
      ({ s with quorums := (p, k) :: s.quorums }, [])

/-- Claim C4: deadline-timeout transition.  If the Deadline timeout fires
while the node has observed neither a value quorum nor a bottom quorum for
its current period, the period is not incremented and the clock is not zeroed
at that instant, and the fast-recovery timer is armed instead; moreover, for
every event, the period can only change by observing a quorum for the current
period. -/
theorem deadline_timeout_no_quorum_arms_fast_recovery (s : MachineState)
    (h : hasQuorum s.period s.quorums = false) :
    (machineStep s MEvent.deadlineFired).1.period = s.period ∧
    (machineStep s MEvent.deadlineFired).1.zeroes = s.zeroes ∧
    (machineStep s MEvent.deadlineFired).1.fastRecoveryArmed = true ∧
    (machineStep s MEvent.deadlineFired).2 = [MAction.armFastRecovery] ∧
    (∀ e : MEvent, (machineStep s e).1.period ≠ s.period →
      ∃ k, e = MEvent.quorumObserved s.period k ∧
        (machineStep s e).1.period = s.period + 1 ∧
        (machineStep s e).1.zeroes = s.zeroes + 1) := by
  have hq : ¬ (hasQuorum s.period s.quorums = true) := by rw [h]; exact Bool.false_ne_true
  refine ⟨?_, ?_, ?_, ?_, ?_⟩
  · rw [machineStep, if_neg hq]
  · rw [machineStep, if_neg hq]
  · rw [machineStep, if_neg hq]
  · rw [machineStep, if_neg hq]
  · intro e he
    cases e with
    | filterFired => exact absurd rfl he
    | deadlineFired =>
      rw [machineStep, if_neg hq] at he
      exact absurd rfl he
    | fastRecoveryFired => exact absurd rfl he
    | quorumObserved p k =>
      by_cases hp : p = s.period
      · subst hp
        refine ⟨k, rfl, ?_, ?_⟩
        · simp [machineStep]
        · simp [machineStep]
      · simp only [machineStep] at he
        rw [if_neg hp] at he
        exact absurd rfl he

/-- Witness for C4 at a concrete state with no quorum for the current
period. -/
theorem deadline_timeout_no_quorum_arms_fast_recovery_witness :
    (machineStep ⟨2, 5, false, [(1, QuorumKind.bottom)], none⟩ MEvent.deadlineFired).1.period = 2 ∧
    (machineStep ⟨2, 5, false, [(1, QuorumKind.bottom)], none⟩ MEvent.deadlineFired).1.zeroes = 5 ∧
    (machineStep ⟨2, 5, false, [(1, QuorumKind.bottom)], none⟩
      MEvent.deadlineFired).1.fastRecoveryArmed = true := by
  have h := deadline_timeout_no_quorum_arms_fast_recovery
    ⟨2, 5, false, [(1, QuorumKind.bottom)], none⟩ (by decide)
  exact ⟨h.1, h.2.1, h.2.2.1⟩

/-
Startup readiness signal (claim C8).
-/

/-- The readiness signal emitted on the ready channel: the initial deadline
duration and the current round (externalDemuxSignals of the Service). -/
structure ExternalDemuxSignals where
  deadlineDuration : Nat
  currentRound : Nat
deriving DecidableEq

/-- Modelled from the spec (§6 Ledger): the ledger collaborator surface the
startup path consults: the next round and the consensus parameters of each
round's protocol version. -/
structure LedgerModel where
  nextRound : Nat
  paramsOf : Nat → ConsensusParams

/-- Modelled from the spec (§6 produced surface): when the Service's main
loop starts it emits exactly one readiness signal, carrying the period-0
filter timeout computed under a fresh (empty) arrival history for the
consensus parameters of the current round's protocol version, and the
Ledger's next round. -/
def mainLoopStartSignals (history grace : Nat) (ledger : LedgerModel) :
    List ExternalDemuxSignals :=
  [⟨filterTimeoutPeriod0 (ledger.paramsOf ledger.nextRound) history grace initialArrival,
    ledger.nextRound⟩]

/-- Claim C8: startup readiness signal.  The main loop emits exactly one
readiness signal; its deadline duration equals AgreementFilterTimeoutPeriod0
of the consensus parameters for the current round's protocol version, and its
current round equals the Ledger's next round. -/
theorem mainLoop_start_readiness (history grace : Nat) (ledger : LedgerModel)
    (hh : 0 < history) :
    (mainLoopStartSignals history grace ledger).length = 1 ∧
    ∀ sig ∈ mainLoopStartSignals history grace ledger,
      sig.deadlineDuration =
          (ledger.paramsOf ledger.nextRound).agreementFilterTimeoutPeriod0 ∧
        sig.currentRound = ledger.nextRound := by
  constructor
  · rfl
  · intro sig hsig
    rcases List.mem_singleton.mp hsig with rfl
    constructor
    · apply filterTimeout0_not_full
      dsimp only [initialArrival]
      simp only [List.length_nil]
      omega
    · rfl

/-- Witness for C8 at a concrete ledger: next round 12, static period-0
filter timeout 77. -/
theorem mainLoop_start_readiness_witness :
    (mainLoopStartSignals 3 5 ⟨12, fun _ => ⟨77, 200, 300, true⟩⟩).length = 1 ∧
    (⟨77, 12⟩ : ExternalDemuxSignals) ∈
      mainLoopStartSignals 3 5 ⟨12, fun _ => ⟨77, 200, 300, true⟩⟩ := by
  have h := mainLoop_start_readiness 3 5 ⟨12, fun _ => ⟨77, 200, 300, true⟩⟩ (by decide)
  refine ⟨h.1, ?_⟩
  have h2 := h.2
  show _ ∈ mainLoopStartSignals 3 5 ⟨12, fun _ => ⟨77, 200, 300, true⟩⟩
  rw [mainLoopStartSignals]
  rw [show filterTimeoutPeriod0 ((⟨12, fun _ => ⟨77, 200, 300, true⟩⟩ :
    LedgerModel).paramsOf 12) 3 5 initialArrival = 77 from rfl]
  exact List.mem_singleton.mpr rfl

/-
Cancellation-tolerant verification caching (claim C7).
-/

/-- Modelled from the spec (§4.5): the state of the asynchronous proposal
verification pipeline: the cache of completed verification results keyed by
(round, digest), the in-flight requests with their cancellation flag, and a
count of the verifications actually launched. -/
structure VerifierState where
  cache : List (Nat × Nat)
  inFlight : List (Nat × Nat × Bool)
  started : Nat
deriving DecidableEq

/-- Outcome reported to the caller when a payload is submitted for
verification. -/
inductive VerifyOutcome
  | cachedHit
  | launched
deriving DecidableEq

/-- Modelled from the spec (§4.5): submitting a proposal payload for
verification: a payload whose result is already cached is served from the
cache without recomputation; otherwise a verification task is launched. -/
def submitVerify (s : VerifierState) (r d : Nat) : VerifierState × VerifyOutcome :=
  if (r, d) ∈ s.cache then (s, VerifyOutcome.cachedHit)
  else ({ s with inFlight := (r, d, false) :: s.inFlight, started := s.started + 1 },
    VerifyOutcome.launched)

/-- Modelled from the spec (§4.5): cancelling the in-flight verification of a
superseded period marks the task cancelled but the task may still run to
completion. -/
def cancelVerify (s : VerifierState) (r d : Nat) : VerifierState :=
  { s with
    inFlight := s.inFlight.map (fun q =>
      if q.1 = r ∧ q.2.1 = d then (q.1, q.2.1, true) else q) }

/-- Modelled from the spec (§4.5): an in-flight verification that completes —
cancelled or not — has its result inserted into the cache rather than
discarded. -/
def completeVerify (s : VerifierState) (r d : Nat) : VerifierState :=
  if s.inFlight.any (fun q => q.1 = r ∧ q.2.1 = d) then
    { cache := (r, d) :: s.cache,
      inFlight := s.inFlight.filter (fun q => ¬ (q.1 = r ∧ q.2.1 = d)),
      started := s.started }
  else s

/-- Claim C7: cancellation-tolerant verification caching.  If a payload's
verification is launched, then cancelled because its period was superseded,
but nevertheless completes, the result is cached; submitting the same payload
again is served from the cache with no new verification launched (the
launch count stays at one more than before). -/
theorem cancelled_verification_cached_and_reused (s : VerifierState) (r d : Nat)
    (h : (r, d) ∉ s.cache) :
    (r, d) ∈ (completeVerify (cancelVerify (submitVerify s r d).1 r d) r d).cache ∧
    (submitVerify (completeVerify (cancelVerify (submitVerify s r d).1 r d) r d) r d).2 =
      VerifyOutcome.cachedHit ∧
    (submitVerify (completeVerify (cancelVerify (submitVerify s r d).1 r d) r d) r d).1.started =
      s.started + 1 := by
  have h1 : (submitVerify s r d).1 =
      { s with inFlight := (r, d, false) :: s.inFlight, started := s.started + 1 } := by
    rw [submitVerify, if_neg h]
  have h2 : (cancelVerify (submitVerify s r d).1 r d).inFlight =
      (r, d, true) :: (s.inFlight.map (fun q =>
        if q.1 = r ∧ q.2.1 = d then (q.1, q.2.1, true) else q)) := by
    rw [h1, cancelVerify]
    dsimp only
    rw [List.map_cons, if_pos ⟨rfl, rfl⟩]
  have hany : (cancelVerify (submitVerify s r d).1 r d).inFlight.any
      (fun q => q.1 = r ∧ q.2.1 = d) = true := by
    rw [h2]
    simp
  have h3 : (completeVerify (cancelVerify (submitVerify s r d).1 r d) r d).cache =
      (r, d) :: s.cache := by
    rw [completeVerify, if_pos hany]
    rw [h1, cancelVerify]
  have h4 : (completeVerify (cancelVerify (submitVerify s r d).1 r d) r d).started =
      s.started + 1 := by
    rw [completeVerify, if_pos hany]
    rw [h1, cancelVerify]
  have hmem : (r, d) ∈ (completeVerify (cancelVerify (submitVerify s r d).1 r d) r d).cache := by
    rw [h3]
    exact List.mem_cons_self (r, d) s.cache
  refine ⟨hmem, ?_, ?_⟩
  · rw [submitVerify, if_pos hmem]
  · rw [submitVerify, if_pos hmem]
    exact h4

/-- Witness for C7 at a concrete verifier state and payload. -/
theorem cancelled_verification_cached_and_reused_witness :
    (3, 9) ∈ (completeVerify (cancelVerify (submitVerify ⟨[], [], 0⟩ 3 9).1 3 9) 3 9).cache ∧
    (submitVerify (completeVerify (cancelVerify (submitVerify ⟨[], [], 0⟩ 3 9).1 3 9) 3 9) 3 9).2 =
      VerifyOutcome.cachedHit :=
  ⟨(cancelled_verification_cached_and_reused ⟨[], [], 0⟩ 3 9 (by decide)).1,
   (cancelled_verification_cached_and_reused ⟨[], [], 0⟩ 3 9 (by decide)).2.1⟩

/-
Synchronous multi-node simulation (claims C1 and C10).
-/

/-- Modelled from the spec (§3 ProposalValue): a proposal as received on the
wire: the proposer's credential priority and the block digest it
identifies. -/
structure Proposal where
  cred : Nat
  digest : Nat
deriving DecidableEq

/-- Modelled from the spec (§4.3 and the sortition interface of §6): the
common pool of proposals received by every node in a synchronous round: one
proposal per node, with round-specific credential `cred r i` and digest
`dig r i` for node `i`. -/
def proposalPool (numNodes : Nat) (cred dig : Nat → Nat → Nat) (r : Nat) : List Proposal :=
  (List.range numNodes).map (fun i => ⟨cred r i, dig r i⟩)

/-- The better of two proposals: the one of lower credential priority, ties
broken by digest; a deterministic function of the two proposals. -/
def betterProposal (a b : Proposal) : Proposal :=
  if a.cred < b.cred ∨ (a.cred = b.cred ∧ a.digest ≤ b.digest) then a else b

/-- The proposal selected from a received pool (none when no proposal
arrived): the best proposal under `betterProposal`. -/
def selectProposal : List Proposal → Option Proposal
  | [] => none
  | p :: ps => some (ps.foldl betterProposal p)

/-- Modelled from the spec (§3 Vote): a soft vote: the voter and the endorsed
digest. -/
structure SVote where
  voter : Nat
  digest : Nat
deriving DecidableEq

/-- The soft votes cast in a synchronous round: every node endorses the
digest of the proposal selected from the common pool. -/
def softVotes (numNodes : Nat) (pool : List Proposal) : List SVote :=
  match selectProposal pool with
  | none => []
  | some p => (List.range numNodes).map (fun i => ⟨i, p.digest⟩)

/-- The weight of the votes for digest `d`: the number of distinct voters
endorsing it (§Glossary Quorum, with unit stake per node). -/
def tally (d : Nat) (votes : List SVote) : Nat :=
  (((votes.filter (fun v => v.digest = d)).map SVote.voter).dedup).length

/-- Modelled from the spec (§4.3): a node's commit decision for one round
from its received pool and votes: the selected proposal's digest, provided
the distinct votes for it meet the quorum threshold. -/
def roundDecision (threshold : Nat) (pool : List Proposal) (votes : List SVote) : Option Nat :=
  match selectProposal pool with
  | none => none
  | some p => if threshold ≤ tally p.digest votes then some p.digest else none

/-- Per-node state over the multi-round simulation: the node id, the ledger
of committed digests, and the node's credential-arrival bookkeeping. -/
structure SyncNode where
  id : Nat
  ledger : List Nat
  arrival : CredentialArrivalState
deriving DecidableEq

/-- One synchronous round at one node (§4.3 commit transition): if the node's
decision yields a digest it appends it to the ledger and updates the
credential-arrival bookkeeping; otherwise nothing changes. -/
def nodeRound (lag history threshold : Nat) (sample : Nat → Nat)
    (pool : List Proposal) (votes : List SVote) (s : SyncNode) : SyncNode :=
  match roundDecision threshold pool votes with
  | none => s
  | some d => ⟨s.id, s.ledger ++ [d], commitRound lag history sample s.arrival⟩

/-- The state of node `i` after a number of synchronous rounds: in each round
every node receives the same proposal pool and the same soft votes. -/
def syncNodeRun (numNodes lag history threshold : Nat) (cred dig : Nat → Nat → Nat)
    (sample : Nat → Nat) (i : Nat) : Nat → SyncNode
  | 0 => ⟨i, [], initialArrival⟩
  | r + 1 =>
    nodeRound lag history threshold sample
      (proposalPool numNodes cred dig r)
      (softVotes numNodes (proposalPool numNodes cred dig r))
      (syncNodeRun numNodes lag history threshold cred dig sample i r)

/-- The digest committed in round `r` of the synchronous run, when a quorum
forms. -/
def syncCommitted (numNodes threshold : Nat) (cred dig : Nat → Nat → Nat) (r : Nat) :
    Option Nat :=
  roundDecision threshold (proposalPool numNodes cred dig r)
    (softVotes numNodes (proposalPool numNodes cred dig r))

/-- The reference ledger of the synchronous run: the committed digests in
round order. -/
def syncLedgerRef (numNodes threshold : Nat) (cred dig : Nat → Nat → Nat) : Nat → List Nat
  | 0 => []
  | r + 1 =>
    match syncCommitted numNodes threshold cred dig r with
    | none => syncLedgerRef numNodes threshold cred dig r
    | some d => syncLedgerRef numNodes threshold cred dig r ++ [d]

/-- The reference credential-arrival state of the synchronous run. -/
def syncArrivalRef (numNodes lag history threshold : Nat) (cred dig : Nat → Nat → Nat)
    (sample : Nat → Nat) : Nat → CredentialArrivalState
  | 0 => initialArrival
  | r + 1 =>
    match syncCommitted numNodes threshold cred dig r with
    | none => syncArrivalRef numNodes lag history threshold cred dig sample r
    | some _ =>
      commitRound lag history sample
        (syncArrivalRef numNodes lag history threshold cred dig sample r)

theorem syncNodeRun_char (numNodes lag history threshold : Nat)
    (cred dig : Nat → Nat → Nat) (sample : Nat → Nat) :
    ∀ r i, (syncNodeRun numNodes lag history threshold cred dig sample i r).id = i ∧
      (syncNodeRun numNodes lag history threshold cred dig sample i r).ledger =
        syncLedgerRef numNodes threshold cred dig r ∧
      (syncNodeRun numNodes lag history threshold cred dig sample i r).arrival =
        syncArrivalRef numNodes lag history threshold cred dig sample r := by
  intro r
  induction r with
  | zero => intro i; exact ⟨rfl, rfl, rfl⟩
  | succ r ih =>
    intro i
    obtain ⟨hid, hled, harr⟩ := ih i
    rw [syncNodeRun, syncLedgerRef, syncArrivalRef, nodeRound]
    cases hdec : syncCommitted numNodes threshold cred dig r with
    | none =>
      rw [syncCommitted] at hdec
      rw [hdec]
      exact ⟨hid, hled, harr⟩
    | some d =>
      rw [syncCommitted] at hdec
      rw [hdec]
      dsimp only
      rw [hid, hled, harr]
      exact ⟨rfl, rfl, rfl⟩

theorem selectProposal_of_ne_nil : ∀ pool : List Proposal, pool ≠ [] →
    ∃ p, selectProposal pool = some p := by
  intro pool h
  cases pool with
  | nil => exact absurd rfl h
  | cons p ps => exact ⟨ps.foldl betterProposal p, rfl⟩

theorem proposalPool_ne_nil (numNodes : Nat) (cred dig : Nat → Nat → Nat) (r : Nat)
    (hn : 0 < numNodes) : proposalPool numNodes cred dig r ≠ [] := by
  unfold proposalPool
  intro h
  have := congrArg List.length h
  simp only [List.length_map, List.length_range, List.length_nil] at this
  omega

theorem tally_softVotes (numNodes : Nat) (pool : List Proposal) (p : Proposal)
    (hp : selectProposal pool = some p) :
    tally p.digest (softVotes numNodes pool) = numNodes := by
  unfold softVotes
  rw [hp]
  unfold tally
  have h1 : ((List.range numNodes).map (fun i => (⟨i, p.digest⟩ : SVote))).filter
      (fun v => decide (v.digest = p.digest)) =
      (List.range numNodes).map (fun i => (⟨i, p.digest⟩ : SVote)) := by
    apply List.filter_eq_self.mpr
    intro v hv
    rcases List.mem_map.mp hv with ⟨i, _, rfl⟩
    simp
  rw [h1, List.map_map]
  have h2 : (SVote.voter ∘ fun i => (⟨i, p.digest⟩ : SVote)) = fun i => i := rfl
  rw [h2]
  have h3 : (List.range numNodes).map (fun i => i) = List.range numNodes := List.map_id' _
  rw [h3, List.dedup_eq_self.mpr (List.nodup_range numNodes), List.length_range]

theorem syncCommitted_isSome (numNodes threshold : Nat) (cred dig : Nat → Nat → Nat)
    (r : Nat) (hn : 0 < numNodes) (ht : threshold ≤ numNodes) :
    ∃ d, syncCommitted numNodes threshold cred dig r = some d := by
  obtain ⟨p, hp⟩ := selectProposal_of_ne_nil _ (proposalPool_ne_nil numNodes cred dig r hn)
  refine ⟨p.digest, ?_⟩
  unfold syncCommitted roundDecision
  rw [hp]
  show (if threshold ≤ tally p.digest (softVotes numNodes (proposalPool numNodes cred dig r))
    then some p.digest else none) = some p.digest
  rw [tally_softVotes numNodes _ p hp, if_pos ht]

theorem syncLedgerRef_length (numNodes threshold : Nat) (cred dig : Nat → Nat → Nat)
    (hn : 0 < numNodes) (ht : threshold ≤ numNodes) :
    ∀ r, (syncLedgerRef numNodes threshold cred dig r).length = r := by
  intro r
  induction r with
  | zero => rfl
  | succ r ih =>
    rw [syncLedgerRef]
    obtain ⟨d, hd⟩ := syncCommitted_isSome numNodes threshold cred dig r hn ht
    rw [hd]
    simp only [List.length_append, List.length_cons, List.length_nil]
    omega

/-- The next round of a node's ledger, as the Go harness reads it: the start
round plus the number of committed entries. -/
def ledgerNextRound (start : Nat) (s : SyncNode) : Nat := start + s.ledger.length

/-- Claim C1: agreement safety of the simulated synchronous run.  With at
least one node and a reachable quorum threshold, after `rounds` rounds from
`start` every node's next round equals `start + rounds`, and the committed
ledgers — hence the committed digest of every round in the range — are
identical across all nodes. -/
theorem agreement_safety_synchronous (numNodes lag history threshold start : Nat)
    (cred dig : Nat → Nat → Nat) (sample : Nat → Nat) (rounds : Nat)
    (hn : 0 < numNodes) (ht : threshold ≤ numNodes) :
    (∀ i, i < numNodes →
      ledgerNextRound start (syncNodeRun numNodes lag history threshold cred dig sample i rounds)
        = start + rounds) ∧
    (∀ i j, i < numNodes → j < numNodes →
      (syncNodeRun numNodes lag history threshold cred dig sample i rounds).ledger =
        (syncNodeRun numNodes lag history threshold cred dig sample j rounds).ledger) := by
  constructor
  · intro i _
    unfold ledgerNextRound
    rw [(syncNodeRun_char numNodes lag history threshold cred dig sample rounds i).2.1]
    rw [syncLedgerRef_length numNodes threshold cred dig hn ht rounds]
  · intro i j _ _
    rw [(syncNodeRun_char numNodes lag history threshold cred dig sample rounds i).2.1,
      (syncNodeRun_char numNodes lag history threshold cred dig sample rounds j).2.1]

/-- Witness for C1 at a concrete run: 3 nodes, threshold 2, 4 rounds starting
at round 1. -/
theorem agreement_safety_synchronous_witness :
    ledgerNextRound 1
      (syncNodeRun 3 1 2 2 (fun _ i => i) (fun r i => 10 * r + i) (fun _ => 1) 0 4) = 5 ∧
    (syncNodeRun 3 1 2 2 (fun _ i => i) (fun r i => 10 * r + i) (fun _ => 1) 0 4).ledger =
      (syncNodeRun 3 1 2 2 (fun _ i => i) (fun r i => 10 * r + i) (fun _ => 1) 2 4).ledger := by
  have h := agreement_safety_synchronous 3 1 2 2 1 (fun _ i => i) (fun r i => 10 * r + i)
    (fun _ => 1) 4 (by decide) (by decide)
  exact ⟨h.1 0 (by decide), h.2 0 2 (by decide) (by decide)⟩

/-- The Filter timeout a node's service arms for its next round: the period-0
filter timeout computed from the node's own credential-arrival history. -/
def armedFilterTimeout (params : ConsensusParams) (history grace : Nat) (s : SyncNode) : Nat :=
  filterTimeoutPeriod0 params history grace s.arrival

/-- Claim C10: cross-node timeout determinism.  In every synchronous run and
after every number of completed rounds, the Filter timeout armed by each
node's service is identical across all nodes; and the timeout policy is a
deterministic function of the observed history: any two nodes with the same
credential-arrival observations compute the same timeout. -/
theorem filter_timeout_cross_node_determinism (params : ConsensusParams)
    (numNodes lag history threshold grace : Nat) (cred dig : Nat → Nat → Nat)
    (sample : Nat → Nat) :
    (∀ rounds i j,
      armedFilterTimeout params history grace
          (syncNodeRun numNodes lag history threshold cred dig sample i rounds) =
        armedFilterTimeout params history grace
          (syncNodeRun numNodes lag history threshold cred dig sample j rounds)) ∧
    (∀ s1 s2 : SyncNode, s1.arrival = s2.arrival →
      armedFilterTimeout params history grace s1 = armedFilterTimeout params history grace s2) := by
  constructor
  · intro rounds i j
    unfold armedFilterTimeout
    rw [(syncNodeRun_char numNodes lag history threshold cred dig sample rounds i).2.2,
      (syncNodeRun_char numNodes lag history threshold cred dig sample rounds j).2.2]
  · intro s1 s2 h
    unfold armedFilterTimeout
    rw [h]

/-- Witness for C10 at a concrete pair of node states with equal observed
history. -/
theorem filter_timeout_cross_node_determinism_witness :
    armedFilterTimeout ⟨100, 200, 300, true⟩ 2 5
        (syncNodeRun 3 1 2 2 (fun _ i => i) (fun r i => 10 * r + i) (fun _ => 1) 0 4) =
      armedFilterTimeout ⟨100, 200, 300, true⟩ 2 5
        (syncNodeRun 3 1 2 2 (fun _ i => i) (fun r i => 10 * r + i) (fun _ => 1) 1 4) ∧
    armedFilterTimeout ⟨100, 200, 300, true⟩ 2 5 ⟨0, [], ⟨3, [1, 1]⟩⟩ =
      armedFilterTimeout ⟨100, 200, 300, true⟩ 2 5 ⟨1, [7], ⟨3, [1, 1]⟩⟩ := by
  have h := filter_timeout_cross_node_determinism ⟨100, 200, 300, true⟩ 3 1 2 2 5
    (fun _ i => i) (fun r i => 10 * r + i) (fun _ => 1)
  exact ⟨h.1 4 0 1, h.2 ⟨0, [], ⟨3, [1, 1]⟩⟩ ⟨1, [7], ⟨3, [1, 1]⟩⟩ rfl⟩

/-
Stale-message relay (claim C9).
-/

/-- Message kinds distinguished by the network tags (§6 Network): votes, cert
vote bundles (certificates), and proposal payloads. -/
inductive MsgKind
  | vote
  | certBundle
  | payload
deriving DecidableEq

/-- A network message: its kind, the round and period it addresses, the
credential priority and digest it carries (meaningful for payloads and
votes), and its sender. -/
structure NetMsg where
  kind : MsgKind
  round : Nat
  period : Nat
  cred : Nat
  digest : Nat
  sender : Nat
deriving DecidableEq

/-- What the node does with a message besides (possibly) updating its own
state. -/
inductive RelayAction
  | relay (m : NetMsg)
  | consume (m : NetMsg)
deriving DecidableEq

/-- A node's decision-relevant state: the next round it works on (every round
below is decided and committed) and its machine state for that round. -/
structure DecisionState where
  nextRound : Nat
  machine : MachineState
deriving DecidableEq

/-- A relay node: its decision state together with the store of rounds whose
proposal payload it holds fully validated.  The payload store is not decision
state: holding a block does not by itself decide anything. -/
structure RelayNode where
  decision : DecisionState
  payloads : List Nat
deriving DecidableEq

/-- Modelled from the spec (§4.3 failure semantics, §7(b)): a message that is
stale for this node: anything for an already-decided round, or a message for
an already-decided period of the current round. -/
def staleMsg (s : DecisionState) (m : NetMsg) : Bool :=
  decide (m.round < s.nextRound) ||
  (decide (m.round = s.nextRound) && decide (m.period < s.machine.period))

/-- Modelled from the spec (§4.3): message handling at a relay node.  A stale
message is relayed and leaves the node unchanged.  A certificate (cert-vote
bundle) for the current round commits only on a fully validated block: with
the payload at hand the round advances and the per-round state is discarded;
without it the node cannot act first-hand, so it relays the certificate and
leaves its decision state unchanged (the stall is resolved by catchup).  A
payload is stored for validation and relayed; the payload alone does not
change the decision state.  A current-round vote is consumed by the machine
(`applyVote`); a future-round vote is pipelined for peers without touching
the current decision state. -/
def handleMessage (applyVote : DecisionState → NetMsg → DecisionState)
    (n : RelayNode) (m : NetMsg) : RelayNode × RelayAction :=
  if staleMsg n.decision m = true then
    (n, RelayAction.relay m)
  else if m.kind = MsgKind.certBundle then
    if m.round = n.decision.nextRound ∧ m.round ∈ n.payloads then
      (⟨⟨n.decision.nextRound + 1,
          ⟨0, n.decision.machine.zeroes + 1, false, [], none⟩⟩, n.payloads⟩,
        RelayAction.relay m)
    else (n, RelayAction.relay m)
  else if m.kind = MsgKind.payload then
    (⟨n.decision, m.round :: n.payloads⟩, RelayAction.relay m)
  else if m.round = n.decision.nextRound then
    (⟨applyVote n.decision m, n.payloads⟩, RelayAction.consume m)
  else
    (n, RelayAction.relay m)

/-- Feed a batch of messages through a relay node in order, collecting the
messages it relays onward to its peers. -/
def relayBatch (applyVote : DecisionState → NetMsg → DecisionState) :
    RelayNode → List NetMsg → RelayNode × List NetMsg
  | n, [] => (n, [])
  | n, m :: ms =>
    match handleMessage applyVote n m with
    | (n1, RelayAction.relay m1) =>
      let rest := relayBatch applyVote n1 ms
      (rest.1, m1 :: rest.2)
    | (n1, RelayAction.consume _) => relayBatch applyVote n1 ms

/-- The proposals carried by the payload messages of a batch. -/
def extractPool (ms : List NetMsg) : List Proposal :=
  ms.filterMap (fun m =>
    if m.kind = MsgKind.payload then some ⟨m.cred, m.digest⟩ else none)

/-- The soft votes carried by the vote messages of a batch. -/
def extractVotes (ms : List NetMsg) : List SVote :=
  ms.filterMap (fun m =>
    if m.kind = MsgKind.vote then some ⟨m.sender, m.digest⟩ else none)

/-- The single relay of TestAgreementCertificateDoesNotStallSingleRelay
(service_test.go): it missed round 3 (no round-3 payload, clock zeroed three
times) while the leaves committed it. -/
def relayScenarioStart : RelayNode := ⟨⟨3, ⟨0, 3, false, [], none⟩⟩, []⟩

/-- The round-3 certificate delivered to the relay after the leaves already
committed round 3 with digest 33. -/
def lateCertificate : NetMsg := ⟨MsgKind.certBundle, 3, 0, 0, 33, 1⟩

/-- The round-4 traffic of the four leaves, all of which passes through the
relay in the star topology: each leaf's proposal payload, and each leaf's
soft vote for the best (lowest-credential) proposal's digest 41. -/
def roundFourWire : List NetMsg :=
  [⟨MsgKind.payload, 4, 0, 1, 41, 1⟩, ⟨MsgKind.payload, 4, 0, 2, 42, 2⟩,
   ⟨MsgKind.payload, 4, 0, 3, 43, 3⟩, ⟨MsgKind.payload, 4, 0, 4, 44, 4⟩,
   ⟨MsgKind.vote, 4, 0, 0, 41, 1⟩, ⟨MsgKind.vote, 4, 0, 0, 41, 2⟩,
   ⟨MsgKind.vote, 4, 0, 0, 41, 3⟩, ⟨MsgKind.vote, 4, 0, 0, 41, 4⟩]

/-- Claim C9: stale messages are relayed without affecting decision state.
Generically: a stale message (already-decided round, or already-decided
period of the current round) is relayed and changes nothing; a certificate
for a round the node has not itself decided and whose payload the node never
validated (the node missed the round) is relayed with the decision state
unchanged; by contrast the §4.3 commit transition is retained: a current-
round certificate meeting a validated payload advances the round.  In the
single-relay scenario, the relay that missed round 3 receives the round-3
certificate late and is left unchanged; it then forwards every round-4
proposal payload and vote of the leaves with its decision state still
unchanged, and every leaf — fed exactly the relayed batch — decides the same
round-4 digest, so the other nodes progress and agree. -/
theorem stale_message_relay (applyVote : DecisionState → NetMsg → DecisionState)
    (n : RelayNode) (m : NetMsg) (hstale : staleMsg n.decision m = true) :
    handleMessage applyVote n m = (n, RelayAction.relay m) ∧
    (∀ n2 : RelayNode, ∀ mc : NetMsg, mc.kind = MsgKind.certBundle →
      n2.decision.nextRound ≤ mc.round → mc.round ∉ n2.payloads →
      handleMessage applyVote n2 mc = (n2, RelayAction.relay mc)) ∧
    (∀ n3 : RelayNode, ∀ mc : NetMsg, mc.kind = MsgKind.certBundle →
      mc.round = n3.decision.nextRound → n3.decision.machine.period ≤ mc.period →
      mc.round ∈ n3.payloads →
      (handleMessage applyVote n3 mc).1.decision.nextRound = n3.decision.nextRound + 1 ∧
        (handleMessage applyVote n3 mc).2 = RelayAction.relay mc) ∧
    handleMessage applyVote relayScenarioStart lateCertificate =
      (relayScenarioStart, RelayAction.relay lateCertificate) ∧
    (relayBatch applyVote relayScenarioStart roundFourWire).2 = roundFourWire ∧
    (relayBatch applyVote relayScenarioStart roundFourWire).1.decision =
      relayScenarioStart.decision ∧
    roundDecision 3
        (extractPool (relayBatch applyVote relayScenarioStart roundFourWire).2)
        (extractVotes (relayBatch applyVote relayScenarioStart roundFourWire).2) =
      some 41 := by
  have hforward : (relayBatch applyVote relayScenarioStart roundFourWire).2 =
      roundFourWire := rfl
  refine ⟨?_, ?_, ?_, rfl, hforward, rfl, ?_⟩
  · rw [handleMessage, if_pos hstale]
  · intro n2 mc hk hr hp
    rw [handleMessage]
    by_cases hs : staleMsg n2.decision mc = true
    · rw [if_pos hs]
    · rw [if_neg hs, if_pos hk, if_neg]
      intro hc
      exact hp hc.2
  · intro n3 mc hk hr hper hp
    have hs : ¬ staleMsg n3.decision mc = true := by
      unfold staleMsg
      simp only [Bool.or_eq_true, Bool.and_eq_true, decide_eq_true_eq]
      omega
    constructor
    · rw [handleMessage, if_neg hs, if_pos hk, if_pos ⟨hr, hp⟩]
    · rw [handleMessage, if_neg hs, if_pos hk, if_pos ⟨hr, hp⟩]
  · rw [hforward]
    decide

/-- Witness for C9 at concrete inputs: a stale round-1 vote at the stuck
relay is relayed unchanged; the late round-3 certificate without the payload
leaves the relay unchanged; the same certificate with the validated round-3
payload at hand advances the round. -/
theorem stale_message_relay_witness :
    handleMessage (fun s _ => s) relayScenarioStart ⟨MsgKind.vote, 1, 0, 0, 9, 2⟩ =
      (relayScenarioStart, RelayAction.relay ⟨MsgKind.vote, 1, 0, 0, 9, 2⟩) ∧
    handleMessage (fun s _ => s) relayScenarioStart lateCertificate =
      (relayScenarioStart, RelayAction.relay lateCertificate) ∧
    (handleMessage (fun s _ => s) ⟨⟨3, ⟨0, 3, false, [], none⟩⟩, [3]⟩
      lateCertificate).1.decision.nextRound = 4 := by
  have h := stale_message_relay (fun s _ => s) relayScenarioStart
    ⟨MsgKind.vote, 1, 0, 0, 9, 2⟩ (by decide)
  exact ⟨h.1,
    (h.2.1 relayScenarioStart lateCertificate (by decide) (by decide) (by decide)),
    (h.2.2.1 ⟨⟨3, ⟨0, 3, false, [], none⟩⟩, [3]⟩ lateCertificate (by decide) (by decide)
      (by decide) (by decide)).1⟩

/-
Fast-recovery randomized backoff (claim C5).
-/

/-- The two fast-partition-recovery firing offsets used by the test harness
(service_test.go, firstFPR and secondFPR). -/
def firstFPR : Nat := 436854775807

/-- The second fast-partition-recovery firing offset of the harness. -/
def secondFPR : Nat := 736854775807

/-- The harness random source (service_test.go testingRand): always half of
the maximum uint64. -/
def testingRandValue : Nat := (2 ^ 64 - 1) / 2

/-- Modelled from the spec (§4.4) and the harness usage of nextVoteRanges
(service_test.go, lines 1985-1991): the randomized fast-recovery firing delay
drawn from the step's vote range `[lower, upper)`: the lower bound plus the
random value reduced modulo the width of the range. -/
def fprDelay (lower upper rand : Nat) : Nat := lower + rand % (upper - lower)

/-- Apply an index-aware function to each element of a list, indices starting
at the first argument. -/
def mapWithIndex {α : Type} (f : Nat → α → α) : Nat → List α → List α
  | _, [] => []
  | i, x :: xs => f i x :: mapWithIndex f (i + 1) xs

/-- Per-node state in the fast-recovery scenario: the node's period, its
count of clock zeroings, and the distinct senders of the current period's
recovery votes received so far. -/
structure RecNode where
  period : Nat
  zeroes : Nat
  votesFrom : List Nat
deriving DecidableEq

/-- The recovery-phase world: the nodes and whether the network currently
drops votes. -/
structure RecWorld where
  nodes : List RecNode
  dropVotes : Bool
deriving DecidableEq

/-- The initial recovery world with `n` nodes in the failing period. -/
def recInit (n : Nat) : RecWorld := ⟨List.replicate n ⟨0, 0, []⟩, false⟩

/-- Set the network's drop-votes flag. -/
def recSetDrop (b : Bool) (w : RecWorld) : RecWorld := ⟨w.nodes, b⟩

/-- Modelled from the spec (§4.4): a set of nodes fires its fast-recovery
timeout: every firing node (re)broadcasts its recovery vote.  A node always
processes its own vote; votes to peers are lost while the network drops
votes.  A node whose distinct-sender vote count reaches the quorum threshold
enters the next period, zeroing its clock and clearing the vote set;
otherwise it accumulates the received votes. -/
def recFire (threshold : Nat) (senders : List Nat) (w : RecWorld) : RecWorld :=
  ⟨mapWithIndex (fun i nd =>
      let rcv := if w.dropVotes then senders.filter (fun s => s = i) else senders
      let vf := (rcv ++ nd.votesFrom).dedup
      if threshold ≤ vf.length then ⟨nd.period + 1, nd.zeroes + 1, []⟩
      else ⟨nd.period, nd.zeroes, vf⟩) 0 w.nodes,
    w.dropVotes⟩

/-- The TestAgreementFastRecoveryDownMiss scenario (service_test.go): five
nodes with next-quorum threshold four.  All votes are dropped while the first
four nodes fire the first randomized fast-recovery timeout; the network is
then repaired and the remaining node fires its first randomized timeout. -/
def downMissAfterFirst : RecWorld :=
  recFire 4 [4] (recSetDrop false (recFire 4 [0, 1, 2, 3] (recSetDrop true (recInit 5))))

/-- The same scenario after the second randomized fast-recovery timeout fires
at every node. -/
def downMissAfterSecond : RecWorld :=
  recFire 4 [0, 1, 2, 3, 4] downMissAfterFirst

/-- Claim C5: two-stage randomized fast-recovery backoff.  After the first
randomized fast-recovery timeout fires at only a strict subset of the nodes
while votes are dropped (and then at the last node after repair), no node has
entered a new period; once the second randomized timeout fires at all nodes,
every node enters period one with exactly one clock zeroing.  The randomized
delay always lies inside the step's vote range, so distinct per-node draws
spread the firing times (preventing lockstep), and the harness's first firing
offset precedes the second. -/
theorem fast_recovery_two_stage_backoff :
    (∀ nd ∈ downMissAfterFirst.nodes, nd.period = 0 ∧ nd.zeroes = 0) ∧
    (∀ nd ∈ downMissAfterSecond.nodes, nd.period = 1 ∧ nd.zeroes = 1) ∧
    (∀ lower upper rand, lower < upper →
      lower ≤ fprDelay lower upper rand ∧ fprDelay lower upper rand < upper) ∧
    firstFPR < secondFPR := by
  refine ⟨by decide, by decide, ?_, by decide⟩
  intro lower upper rand h
  constructor
  · exact Nat.le_add_right lower _
  · have hm : rand % (upper - lower) < upper - lower := Nat.mod_lt rand (by omega)
    unfold fprDelay
    omega

/-- Witness for C5: a concrete node of the scenario and a concrete delay
draw using the harness random value. -/
theorem fast_recovery_two_stage_backoff_witness :
    ((⟨0, 0, [4, 0]⟩ : RecNode).period = 0 ∧ (⟨0, 0, [4, 0]⟩ : RecNode).zeroes = 0) ∧
    (3 ≤ fprDelay 3 10 testingRandValue ∧ fprDelay 3 10 testingRandValue < 10) :=
  ⟨fast_recovery_two_stage_backoff.1 ⟨0, 0, [4, 0]⟩ (by decide),
   fast_recovery_two_stage_backoff.2.2.1 3 10 testingRandValue (by decide)⟩

/-
Split-quorum reconciliation (claim C6).
-/

/-- Per-node state in the split-quorum reconciliation scenario: the node's
period, the starting value pinned by quorum evidence, the cert vote it cast
in the current period, and the digest it committed for the round. -/
structure SQNode where
  period : Nat
  startingValue : Option Nat
  certVote : Option Nat
  committed : Option Nat
deriving DecidableEq

/-- Modelled from the spec (§4.3 state): a value (soft) quorum for proposal
`v` observed at the target nodes pins `v` as their starting value. -/
def sqPin (v : Nat) (targets : List Nat) (w : List SQNode) : List SQNode :=
  mapWithIndex (fun i nd =>
    if i ∈ targets then ⟨nd.period, some v, nd.certVote, nd.committed⟩ else nd) 0 w

/-- Modelled from the spec (§4.3): a bottom quorum observed at the target
nodes advances them one period; bottom carries the previous starting value
(none when nothing was pinned). -/
def sqAdvanceBottom (targets : List Nat) (w : List SQNode) : List SQNode :=
  mapWithIndex (fun i nd =>
    if i ∈ targets then ⟨nd.period + 1, nd.startingValue, none, nd.committed⟩ else nd) 0 w

/-- Modelled from the spec (§4.3): a value quorum for `v` observed at the
target nodes advances them one period carrying `v` as the starting value. -/
def sqAdvanceValue (v : Nat) (targets : List Nat) (w : List SQNode) : List SQNode :=
  mapWithIndex (fun i nd =>
    if i ∈ targets then ⟨nd.period + 1, some v, none, nd.committed⟩ else nd) 0 w

/-- Modelled from the spec (§4.4 reconciliation): a node that advanced with
only the bottom quorum re-derives the value starting point upon seeing the
relayed value-quorum votes. -/
def sqReconcile (v : Nat) (targets : List Nat) (w : List SQNode) : List SQNode :=
  mapWithIndex (fun i nd =>
    if i ∈ targets ∧ nd.startingValue = none then ⟨nd.period, some v, nd.certVote, nd.committed⟩
    else nd) 0 w

/-- Modelled from the spec (§4.3): in the new period every node cert-votes
its starting value (the reproposal of the pinned value). -/
def sqCastCert (w : List SQNode) : List SQNode :=
  w.map (fun nd => ⟨nd.period, nd.startingValue, nd.startingValue, nd.committed⟩)

/-- The number of cert votes for value `v`. -/
def sqTally (v : Nat) (w : List SQNode) : Nat :=
  (w.filter (fun nd => nd.certVote = some v)).length

/-- A value whose cert votes meet the quorum threshold, if any. -/
def sqWinner (threshold : Nat) (w : List SQNode) : Option Nat :=
  (w.filterMap SQNode.certVote).find? (fun v => decide (threshold ≤ sqTally v w))

/-- Modelled from the spec (§4.3 commit transition): once the relayed cert
quorum is observed, every node commits its value. -/
def sqCommitStep (threshold : Nat) (w : List SQNode) : List SQNode :=
  match sqWinner threshold w with
  | none => w
  | some v => w.map (fun nd => ⟨nd.period, nd.startingValue, nd.certVote, some v⟩)

/-- The initial split-quorum world of five nodes in period 0 of the round. -/
def sqInit : List SQNode := List.replicate 5 ⟨0, none, none, none⟩

/-- The TestAgreementRecoverBothVAndBotQuorums scenario (service_test.go):
the soft votes for proposal 7 are pocketed during period 0; a bottom quorum
reaches only node 0, which enters period 1 on bottom with no pinned value;
the pocketed soft votes are re-multicast, so nodes 1-4 assemble the value
quorum for 7 and enter period 1 carrying it; the relayed value quorum then
reaches node 0, which re-derives 7; in period 1 every node cert-votes its
starting value and the assembled cert quorum commits. -/
def splitQuorumRun : List SQNode :=
  sqCommitStep 4 (sqCastCert (sqReconcile 7 [0]
    (sqAdvanceValue 7 [1, 2, 3, 4] (sqPin 7 [1, 2, 3, 4]
      (sqAdvanceBottom [0] sqInit)))))

/-- Claim C6: split-quorum reconciliation.  In the scenario where one node
advances on a bottom quorum while the others assemble a value quorum for
proposal 7, after the quorums are relayed every node's cert vote in the
following period carries 7, every node commits 7, the committed value is
identical across all nodes (never divergent), and every node sits in period
1. -/
theorem split_quorum_reconciliation :
    (∀ nd ∈ splitQuorumRun, nd.certVote = some 7) ∧
    (∀ nd ∈ splitQuorumRun, nd.committed = some 7) ∧
    (∀ a ∈ splitQuorumRun, ∀ b ∈ splitQuorumRun, a.committed = b.committed) ∧
    (∀ nd ∈ splitQuorumRun, nd.period = 1) := by
  refine ⟨by decide, by decide, by decide, by decide⟩

/-- Witness for C6 at the concrete final node state of the scenario. -/
theorem split_quorum_reconciliation_witness :
    (⟨1, some 7, some 7, some 7⟩ : SQNode).certVote = some 7 ∧
    (⟨1, some 7, some 7, some 7⟩ : SQNode).committed = some 7 :=
  ⟨split_quorum_reconciliation.1 ⟨1, some 7, some 7, some 7⟩ (by decide),
   split_quorum_reconciliation.2.1 ⟨1, some 7, some 7, some 7⟩ (by decide)⟩

end Agreement
